import Mathlib

/-!
Shallow embedding of the note-storage core of `Pomocnik_jezykowy_app.py`
(the NoteStore component of the spec): the Qdrant-backed vector store and
the four app functions `assure_db_collection_exists`, `get_embedding`,
`add_note_to_db` and `list_notes_from_db`.

The Qdrant client and the OpenAI embedding endpoint are external
collaborators; they are modelled from the spec's collaborator contracts
(section 6 of the spec): the index is a named collection holding id-keyed
points, `count` is exact, `scroll` enumerates in ascending-id order,
`search` returns the nearest neighbours sorted by descending similarity,
and the embedding provider is an abstract function that either yields a
vector or fails.  Cosine similarity is modelled by a rational dot product
(Qdrant normalises vectors under cosine distance, making ranking by
cosine similarity identical to ranking by dot product); the concrete
score values are irrelevant to every claim, only the ordering matters.
-/

/-- Distance metric of a collection (source: `qdrant_client.models.Distance`). -/
inductive Distance where
  | cosine
  | euclid
  | dot
deriving DecidableEq

/-- Vector configuration of a collection (source: `VectorParams(size=..., distance=...)`). -/
structure VectorParams where
  size : Nat
  distance : Distance
deriving DecidableEq

/-- A stored point: id, vector, and the payload `{"text": note_text}` used by the app. -/
structure DBPoint where
  id : Nat
  vector : List ℚ
  text : String
deriving DecidableEq

/-- A collection: its vector configuration and its stored points (kept in ascending-id order). -/
structure QCollection where
  params : VectorParams
  points : List DBPoint
deriving DecidableEq

/-- Modelled from the spec: the in-memory Qdrant store, a map from collection names
to collections (the VectorIndex collaborator of section 6). -/
structure QdrantDB where
  collections : List (String × QCollection)
deriving DecidableEq

/-- Look a collection up by name. -/
def lookupColl (name : String) : List (String × QCollection) → Option QCollection
  | [] => none
  | nc :: rest => if nc.1 = name then some nc.2 else lookupColl name rest

/-- Replace the collection stored under a name (no-op when the name is absent). -/
def setColl (name : String) (c : QCollection) : List (String × QCollection) → List (String × QCollection)
  | [] => []
  | nc :: rest => if nc.1 = name then (name, c) :: rest else nc :: setColl name c rest

def getCollection (name : String) (db : QdrantDB) : Option QCollection :=
  lookupColl name db.collections

def setCollection (name : String) (c : QCollection) (db : QdrantDB) : QdrantDB :=
  ⟨setColl name c db.collections⟩

/-- Modelled from the spec: `exists(name) -> bool` of the VectorIndex contract
(source call: `qdrant_client.collection_exists`). -/
def collection_exists (name : String) (db : QdrantDB) : Bool :=
  (getCollection name db).isSome

/-- Modelled from the spec: `create(name, dimension, metric)` of the VectorIndex
contract (source call: `qdrant_client.create_collection`); the new collection is empty. -/
def create_collection (name : String) (params : VectorParams) (db : QdrantDB) : QdrantDB :=
  ⟨db.collections ++ [(name, ⟨params, []⟩)]⟩

/-- Modelled from the spec: `count(name) -> integer`, the exact count of stored records
(source call: `qdrant_client.count(..., exact=True)`); fails when the collection is absent. -/
def qcount (name : String) (db : QdrantDB) : Except String Nat :=
  match getCollection name db with
  | none => .error "collection not found"
  | some c => .ok c.points.length

/-- Insert a point into an ascending-id point list, overwriting an existing point
with the same id (Qdrant upsert semantics; points are stored ordered by id). -/
def insertById (pt : DBPoint) : List DBPoint → List DBPoint
  | [] => [pt]
  | q :: rest =>
    if pt.id < q.id then pt :: q :: rest
    else if pt.id = q.id then pt :: rest
    else q :: insertById pt rest

/-- Modelled from the spec: `insert(name, id, vector, payload)` of the VectorIndex
contract (source call: `qdrant_client.upsert`); fails when the collection is absent. -/
def qupsert (name : String) (pt : DBPoint) (db : QdrantDB) : Except String QdrantDB :=
  match getCollection name db with
  | none => .error "collection not found"
  | some c => .ok (setCollection name ⟨c.params, insertById pt c.points⟩ db)

/-- Modelled from the spec: `scroll(name, limit)` of the VectorIndex contract
(source call: `qdrant_client.scroll(..., limit=12)`): the first `limit` points
of the store's own enumeration order (ascending id). -/
def qscroll (name : String) (limit : Nat) (db : QdrantDB) : Except String (List DBPoint) :=
  match getCollection name db with
  | none => .error "collection not found"
  | some c => .ok (c.points.take limit)

/-- Rational dot product, the similarity score used to rank search results
(stand-in for cosine similarity over normalised vectors). -/
def dotSim (a b : List ℚ) : ℚ :=
  ((a.zip b).map fun xy => xy.1 * xy.2).sum

/-- Insert a scored point into a list sorted by descending score. -/
def insertDesc (x : DBPoint × ℚ) : List (DBPoint × ℚ) → List (DBPoint × ℚ)
  | [] => [x]
  | y :: rest => if y.2 ≤ x.2 then x :: y :: rest else y :: insertDesc x rest

/-- Sort scored points by descending score (insertion sort). -/
def sortDesc : List (DBPoint × ℚ) → List (DBPoint × ℚ)
  | [] => []
  | x :: rest => insertDesc x (sortDesc rest)

/-- Modelled from the spec: `search(name, vector, limit)` of the VectorIndex contract
(source call: `qdrant_client.search`): the `limit` stored points nearest to the query
vector, sorted by descending similarity; fails when the collection is absent. -/
def qsearch (name : String) (qv : List ℚ) (limit : Nat) (db : QdrantDB) :
    Except String (List (DBPoint × ℚ)) :=
  match getCollection name db with
  | none => .error "collection not found"
  | some c => .ok ((sortDesc (c.points.map fun p => (p, dotSim qv p.vector))).take limit)

/-- Source constant `EMBEDDING_DIM = 3072`. -/
def EMBEDDING_DIM : Nat := 3072

/-- Source constant `QDRANT_COLLECTION_NAME = "notes"`. -/
def QDRANT_COLLECTION_NAME : String := "notes"

/-- Modelled from the spec: the EmbeddingProvider collaborator — `embed(text)` yields a
fixed-length vector or fails with a provider error. -/
abbrev Emb := String → Except String (List ℚ)

/-- Source `get_embedding(text)`: delegate the text to the embedding provider. -/
def get_embedding (emb : Emb) (text : String) : Except String (List ℚ) :=
  emb text

/-- Source `assure_db_collection_exists()`: create the `notes` collection with
dimension `EMBEDDING_DIM` under cosine distance unless it already exists. -/
def assure_db_collection_exists (db : QdrantDB) : QdrantDB :=
  if collection_exists QDRANT_COLLECTION_NAME db then db
  else create_collection QDRANT_COLLECTION_NAME ⟨EMBEDDING_DIM, Distance.cosine⟩ db

/-- Source `add_note_to_db(note_text)`: read the exact point count, compute the
embedding, and upsert one point keyed `count + 1` with payload `{"text": note_text}`.
Each fallible collaborator call propagates its error. -/
def add_note_to_db (emb : Emb) (note_text : String) (db : QdrantDB) : Except String QdrantDB :=
  match qcount QDRANT_COLLECTION_NAME db with
  | .error e => .error e
  | .ok points_count =>
    match get_embedding emb note_text with
    | .error e => .error e
    | .ok v => qupsert QDRANT_COLLECTION_NAME ⟨points_count + 1, v, note_text⟩ db

/-- One returned item of `list_notes_from_db`: `{"text": ..., "score": ...}`. -/
structure SearchResult where
  text : String
  score : Option ℚ
deriving DecidableEq

/-- Source `list_notes_from_db(query=None)`: with a falsy query (`None` or the empty
string, Python `if not query`) scroll up to 12 points and return them with
`score = None`; otherwise embed the query and search the 10 nearest neighbours,
returning each with its similarity score. -/
def list_notes_from_db (emb : Emb) (query : Option String) (db : QdrantDB) :
    Except String (List SearchResult) :=
  match query with
  | none =>
    match qscroll QDRANT_COLLECTION_NAME 12 db with
    | .error e => .error e
    | .ok notes => .ok (notes.map fun p => ⟨p.text, none⟩)
  | some q =>
    if q = "" then
      match qscroll QDRANT_COLLECTION_NAME 12 db with
      | .error e => .error e
      | .ok notes => .ok (notes.map fun p => ⟨p.text, none⟩)
    else
      match get_embedding emb q with
      | .error e => .error e
      | .ok qv =>
        match qsearch QDRANT_COLLECTION_NAME qv 10 db with
        | .error e => .error e
        | .ok notes => .ok (notes.map fun pq => ⟨pq.1.text, some pq.2⟩)

/-- The vector configuration the app creates the `notes` collection with. -/
def notesCfg : VectorParams := ⟨EMBEDDING_DIM, Distance.cosine⟩

/-- A freshly created store: `assure_db_collection_exists` run on an empty Qdrant instance. -/
def freshDB : QdrantDB := assure_db_collection_exists ⟨[]⟩

/-- Sequential adds: fold `add_note_to_db` over a list of texts. -/
def addAll (emb : Emb) (ts : List String) (db : QdrantDB) : Except String QdrantDB :=
  match ts with
  | [] => .ok db
  | t :: rest =>
    match add_note_to_db emb t db with
    | .error e => .error e
    | .ok db1 => addAll emb rest db1

/-- The ids `[1, 2, ..., n]` in order. -/
def idsUpTo : Nat → List Nat
  | 0 => []
  | n + 1 => idsUpTo n ++ [n + 1]

/-- A concrete always-succeeding embedding provider used in witnesses:
every text maps to the all-ones vector of the configured dimension. -/
def embConst : Emb := fun _ => .ok (List.replicate EMBEDDING_DIM 1)

/-- A concrete always-failing embedding provider used in witnesses. -/
def embFail : Emb := fun _ => .error "embedding service unavailable"

-- ### Helper lemmas about the store

lemma lookupColl_setColl_self (name : String) (c c0 : QCollection) :
    ∀ l : List (String × QCollection), lookupColl name l = some c0 →
      lookupColl name (setColl name c l) = some c := by
  intro l
  induction l with
  | nil => intro h; simp [lookupColl] at h
  | cons nc rest ih =>
    intro h
    by_cases hn : nc.1 = name
    · simp [lookupColl, setColl, hn]
    · simp [lookupColl, setColl, hn] at h ⊢
      exact ih h

lemma lookupColl_append_new (name : String) (c : QCollection) :
    ∀ l : List (String × QCollection), lookupColl name l = none →
      lookupColl name (l ++ [(name, c)]) = some c := by
  intro l
  induction l with
  | nil => intro _; simp [lookupColl]
  | cons nc rest ih =>
    intro h
    by_cases hn : nc.1 = name
    · simp [lookupColl, hn] at h
    · simp [lookupColl, hn] at h ⊢
      exact ih h

lemma getCollection_setCollection_self (name : String) (c c0 : QCollection) (db : QdrantDB)
    (h : getCollection name db = some c0) :
    getCollection name (setCollection name c db) = some c :=
  lookupColl_setColl_self name c c0 db.collections h

lemma insertById_append (pt : DBPoint) :
    ∀ l : List DBPoint, (∀ q ∈ l, q.id < pt.id) → insertById pt l = l ++ [pt] := by
  intro l
  induction l with
  | nil => intro _; rfl
  | cons q rest ih =>
    intro h
    have hq : q.id < pt.id := h q (List.mem_cons_self q rest)
    have h1 : ¬ pt.id < q.id := by omega
    have h2 : ¬ pt.id = q.id := by omega
    simp only [insertById, if_neg h1, if_neg h2, List.cons_append]
    have := ih (fun r hr => h r (List.mem_cons_of_mem q hr))
    rw [this]

lemma mem_idsUpTo {m n : Nat} (h : m ∈ idsUpTo n) : 1 ≤ m ∧ m ≤ n := by
  induction n with
  | zero => simp [idsUpTo] at h
  | succ k ih =>
    simp only [idsUpTo, List.mem_append, List.mem_singleton] at h
    rcases h with h | h
    · have := ih h; omega
    · omega

lemma idsUpTo_nodup (n : Nat) : (idsUpTo n).Nodup := by
  induction n with
  | zero => simp [idsUpTo]
  | succ k ih =>
    simp only [idsUpTo]
    refine List.Nodup.append ih (List.nodup_singleton _) ?_
    intro a ha hb
    simp only [List.mem_singleton] at hb
    subst hb
    have := mem_idsUpTo ha
    omega

lemma freshDB_lookup :
    getCollection QDRANT_COLLECTION_NAME freshDB = some ⟨notesCfg, []⟩ := by
  rfl

-- ### Sequential-add invariant

/-- One `add_note_to_db` step, starting from a state whose points carry the ids
`1..n`: the embedding must have succeeded and the new point is appended with id `n + 1`. -/
lemma add_step (emb : Emb) (t : String) (db : QdrantDB) (prm : VectorParams)
    (pts : List DBPoint)
    (hc : getCollection QDRANT_COLLECTION_NAME db = some ⟨prm, pts⟩)
    (hid : pts.map (fun p => p.id) = idsUpTo pts.length)
    (db2 : QdrantDB) (h : add_note_to_db emb t db = .ok db2) :
    ∃ v, emb t = .ok v ∧
      getCollection QDRANT_COLLECTION_NAME db2 =
        some ⟨prm, pts ++ [⟨pts.length + 1, v, t⟩]⟩ := by
  unfold add_note_to_db qcount at h
  rw [hc] at h
  simp only at h
  cases he : get_embedding emb t with
  | error e => rw [he] at h; simp at h
  | ok v =>
    rw [he] at h
    simp only at h
    unfold qupsert at h
    rw [hc] at h
    simp only [Except.ok.injEq] at h
    refine ⟨v, he, ?_⟩
    subst h
    have hlt : ∀ q ∈ pts, q.id < pts.length + 1 := by
      intro q hq
      have : q.id ∈ pts.map (fun p => p.id) := List.mem_map_of_mem _ hq
      rw [hid] at this
      have := mem_idsUpTo this
      omega
    rw [insertById_append _ pts hlt]
    exact getCollection_setCollection_self _ _ _ db hc

/-- Running `addAll` from a state whose points carry the ids `1..n` preserves that
shape and grows the point list by exactly the number of texts added. -/
lemma addAll_inv (emb : Emb) (ts : List String) :
    ∀ (db : QdrantDB) (prm : VectorParams) (pts : List DBPoint),
      getCollection QDRANT_COLLECTION_NAME db = some ⟨prm, pts⟩ →
      pts.map (fun p => p.id) = idsUpTo pts.length →
      ∀ db2, addAll emb ts db = .ok db2 →
      ∃ pts2, getCollection QDRANT_COLLECTION_NAME db2 = some ⟨prm, pts2⟩ ∧
        pts2.map (fun p => p.id) = idsUpTo pts2.length ∧
        pts2.length = pts.length + ts.length := by
  induction ts with
  | nil =>
    intro db prm pts hc hid db2 h
    simp only [addAll, Except.ok.injEq] at h
    subst h
    exact ⟨pts, hc, hid, by simp⟩
  | cons t rest ih =>
    intro db prm pts hc hid db2 h
    simp only [addAll] at h
    cases h1 : add_note_to_db emb t db with
    | error e => rw [h1] at h; simp at h
    | ok db1 =>
      rw [h1] at h
      simp only at h
      obtain ⟨v, _, hc1⟩ := add_step emb t db prm pts hc hid db1 h1
      have hid1 : (pts ++ [(⟨pts.length + 1, v, t⟩ : DBPoint)]).map (fun p => p.id) =
          idsUpTo (pts ++ [(⟨pts.length + 1, v, t⟩ : DBPoint)]).length := by
        simp only [List.map_append, List.length_append, List.map_cons, List.map_nil,
          List.length_cons, List.length_nil, hid]
        rfl
      obtain ⟨pts2, hc2, hid2, hlen2⟩ := ih db1 prm _ hc1 hid1 db2 h
      refine ⟨pts2, hc2, hid2, ?_⟩
      simp only [List.length_append, List.length_cons, List.length_nil] at hlen2
      simp only [hlen2, List.length_cons]
      omega

-- ### Sorting lemmas for the search path

lemma mem_insertDesc {a x : DBPoint × ℚ} :
    ∀ {l : List (DBPoint × ℚ)}, a ∈ insertDesc x l → a = x ∨ a ∈ l := by
  intro l
  induction l with
  | nil => intro h; simp [insertDesc] at h; exact Or.inl h
  | cons y rest ih =>
    intro h
    simp only [insertDesc] at h
    by_cases hc : y.2 ≤ x.2
    · rw [if_pos hc, List.mem_cons] at h
      rcases h with h | h
      · exact Or.inl h
      · exact Or.inr h
    · rw [if_neg hc, List.mem_cons] at h
      rcases h with h | h
      · exact Or.inr (List.mem_cons.mpr (Or.inl h))
      · rcases ih h with h2 | h2
        · exact Or.inl h2
        · exact Or.inr (List.mem_cons.mpr (Or.inr h2))

lemma mem_sortDesc {a : DBPoint × ℚ} :
    ∀ {l : List (DBPoint × ℚ)}, a ∈ sortDesc l → a ∈ l := by
  intro l
  induction l with
  | nil => intro h; simp [sortDesc] at h
  | cons x rest ih =>
    intro h
    simp only [sortDesc] at h
    rcases mem_insertDesc h with h2 | h2
    · exact h2 ▸ List.mem_cons_self x rest
    · exact List.mem_cons_of_mem x (ih h2)

lemma insertDesc_sorted (x : DBPoint × ℚ) :
    ∀ {l : List (DBPoint × ℚ)}, l.Sorted (fun a b => b.2 ≤ a.2) →
      (insertDesc x l).Sorted (fun a b => b.2 ≤ a.2) := by
  intro l
  induction l with
  | nil => intro _; simp [insertDesc, List.Sorted]
  | cons y rest ih =>
    intro h
    have hy := List.rel_of_sorted_cons h
    have htail : rest.Sorted (fun a b => b.2 ≤ a.2) := h.of_cons
    simp only [insertDesc]
    by_cases hc : y.2 ≤ x.2
    · rw [if_pos hc]
      refine List.sorted_cons.mpr ⟨?_, h⟩
      intro b hb
      rcases List.mem_cons.mp hb with hb | hb
      · subst hb; exact hc
      · exact le_trans (hy b hb) hc
    · rw [if_neg hc]
      refine List.sorted_cons.mpr ⟨?_, ih htail⟩
      intro b hb
      rcases mem_insertDesc hb with h2 | h2
      · subst h2; exact le_of_not_le hc
      · exact hy b h2

lemma sortDesc_sorted :
    ∀ (l : List (DBPoint × ℚ)), (sortDesc l).Sorted (fun a b => b.2 ≤ a.2) := by
  intro l
  induction l with
  | nil => simp [sortDesc, List.Sorted]
  | cons x rest ih => exact insertDesc_sorted x ih

-- ### Claim theorems

/-- C3: `assure_db_collection_exists` is idempotent — if the `notes` collection exists
it is a no-op (the whole state, hence the index configuration, is unchanged); if it
does not exist it creates the collection with dimension 3072 and cosine distance; and
calling it twice equals calling it once. -/
theorem ensureIndex_idempotent (db : QdrantDB) :
    (collection_exists QDRANT_COLLECTION_NAME db = true →
      assure_db_collection_exists db = db) ∧
    (collection_exists QDRANT_COLLECTION_NAME db = false →
      getCollection QDRANT_COLLECTION_NAME (assure_db_collection_exists db) =
        some ⟨⟨3072, Distance.cosine⟩, []⟩) ∧
    assure_db_collection_exists (assure_db_collection_exists db) =
      assure_db_collection_exists db := by
  refine ⟨?_, ?_, ?_⟩
  · intro h
    simp [assure_db_collection_exists, h]
  · intro h
    simp only [assure_db_collection_exists, h, Bool.false_eq_true, if_false]
    have hnone : getCollection QDRANT_COLLECTION_NAME db = none := by
      unfold collection_exists at h
      exact Option.not_isSome_iff_eq_none.mp (by simp [h])
    exact lookupColl_append_new _ _ db.collections hnone
  · by_cases h : collection_exists QDRANT_COLLECTION_NAME db = true
    · simp [assure_db_collection_exists, h]
    · have h2 : collection_exists QDRANT_COLLECTION_NAME db = false := by
        revert h; cases collection_exists QDRANT_COLLECTION_NAME db <;> simp
      have hnone : getCollection QDRANT_COLLECTION_NAME db = none := by
        unfold collection_exists at h2
        exact Option.not_isSome_iff_eq_none.mp (by simp [h2])
      have hsome : getCollection QDRANT_COLLECTION_NAME
          (assure_db_collection_exists db) = some ⟨⟨EMBEDDING_DIM, Distance.cosine⟩, []⟩ := by
        simp only [assure_db_collection_exists, h2, Bool.false_eq_true, if_false]
        exact lookupColl_append_new _ _ db.collections hnone
      have hex : collection_exists QDRANT_COLLECTION_NAME
          (assure_db_collection_exists db) = true := by
        unfold collection_exists
        simp [hsome]
      conv_lhs => rw [assure_db_collection_exists, if_pos hex]

/-- Witness for C3 at the empty store: creating then re-running is a no-op and the
created collection has dimension 3072 with cosine distance. -/
theorem ensureIndex_idempotent_witness :
    assure_db_collection_exists (assure_db_collection_exists ⟨[]⟩) =
      assure_db_collection_exists ⟨[]⟩ ∧
    getCollection QDRANT_COLLECTION_NAME (assure_db_collection_exists ⟨[]⟩) =
      some ⟨⟨3072, Distance.cosine⟩, []⟩ :=
  ⟨(ensureIndex_idempotent ⟨[]⟩).2.2,
   (ensureIndex_idempotent ⟨[]⟩).2.1 (by rfl)⟩

/-- C5: the unranked listing (no query) returns the first up-to-12 points of the
store's enumeration order, each with `score = None`. -/
theorem list_unranked (emb : Emb) (db : QdrantDB) (c : QCollection)
    (hc : getCollection QDRANT_COLLECTION_NAME db = some c) :
    ∃ rs, list_notes_from_db emb none db = .ok rs ∧
      rs = (c.points.take 12).map (fun p => (⟨p.text, none⟩ : SearchResult)) ∧
      rs.length ≤ 12 ∧ ∀ r ∈ rs, r.score = none := by
  refine ⟨_, ?_, rfl, ?_, ?_⟩
  · simp only [list_notes_from_db, qscroll, hc]
  · rw [List.length_map, List.length_take]
    exact Nat.min_le_left _ _
  · intro r hr
    simp only [List.mem_map] at hr
    obtain ⟨p, _, hp⟩ := hr
    rw [← hp]

/-- Witness for C5 at a freshly created store. -/
theorem list_unranked_witness :
    ∃ rs, list_notes_from_db embConst none freshDB = .ok rs ∧
      rs = (([] : List DBPoint).take 12).map (fun p => (⟨p.text, none⟩ : SearchResult)) ∧
      rs.length ≤ 12 ∧ ∀ r ∈ rs, r.score = none :=
  list_unranked embConst freshDB ⟨notesCfg, []⟩ rfl

/-- C10: a falsy query (`None` or the empty string) takes the unranked browse branch —
the result is the scroll of up to 12 notes with `score = None`, identically for every
embedding provider (so the provider is never consulted and no validation error is
raised). -/
theorem empty_query_browses (emb emb2 : Emb) (db : QdrantDB) (c : QCollection)
    (hc : getCollection QDRANT_COLLECTION_NAME db = some c)
    (q : Option String) (hq : q = none ∨ q = some "") :
    list_notes_from_db emb q db =
      .ok ((c.points.take 12).map fun p => (⟨p.text, none⟩ : SearchResult)) ∧
    list_notes_from_db emb q db = list_notes_from_db emb2 q db := by
  have key : ∀ e : Emb, list_notes_from_db e q db =
      .ok ((c.points.take 12).map fun p => (⟨p.text, none⟩ : SearchResult)) := by
    intro e
    rcases hq with hq | hq <;> subst hq <;>
      simp [list_notes_from_db, qscroll, hc]
  exact ⟨key emb, (key emb).trans (key emb2).symm⟩

/-- Witness for C10: the empty-string query with an always-failing embedding provider
still browses without error. -/
theorem empty_query_browses_witness :
    list_notes_from_db embFail (some "") freshDB =
      .ok ((([] : List DBPoint).take 12).map fun p => (⟨p.text, none⟩ : SearchResult)) ∧
    list_notes_from_db embFail (some "") freshDB =
      list_notes_from_db embConst (some "") freshDB :=
  empty_query_browses embFail embConst freshDB ⟨notesCfg, []⟩ rfl (some "") (Or.inr rfl)

/-- C7: searching with a non-empty query on a freshly created, empty index returns the
empty sequence, not an error (given the query embedding succeeds). -/
theorem empty_store_search (emb : Emb) (q : String) (hq : q ≠ "") (qv : List ℚ)
    (he : emb q = .ok qv) :
    list_notes_from_db emb (some q) freshDB = .ok [] := by
  simp [list_notes_from_db, hq, get_embedding, he, qsearch, freshDB_lookup, sortDesc]

/-- Witness for C7 at the query "anything". -/
theorem empty_store_search_witness :
    list_notes_from_db embConst (some "anything") freshDB = .ok [] :=
  empty_store_search embConst "anything" (by decide) (List.replicate EMBEDDING_DIM 1) rfl

/-- C2: a non-empty query returns at most 10 results, each pairing the stored text of
some point with a similarity score, sorted by descending score. -/
theorem search_ranked (emb : Emb) (q : String) (hq : q ≠ "") (db : QdrantDB)
    (c : QCollection) (hc : getCollection QDRANT_COLLECTION_NAME db = some c)
    (qv : List ℚ) (he : emb q = .ok qv) :
    ∃ scored : List (DBPoint × ℚ),
      list_notes_from_db emb (some q) db =
        .ok (scored.map fun pq => (⟨pq.1.text, some pq.2⟩ : SearchResult)) ∧
      scored.length ≤ 10 ∧
      scored.Sorted (fun a b => b.2 ≤ a.2) ∧
      ∀ pq ∈ scored, pq.1 ∈ c.points := by
  refine ⟨(sortDesc (c.points.map fun p => (p, dotSim qv p.vector))).take 10, ?_, ?_, ?_, ?_⟩
  · simp [list_notes_from_db, hq, get_embedding, he, qsearch, hc]
  · rw [List.length_take]
    exact Nat.min_le_left _ _
  · exact List.Pairwise.sublist (List.take_sublist 10 _) (sortDesc_sorted _)
  · intro pq hpq
    have h1 := (List.take_sublist 10 _).mem hpq
    have h2 := mem_sortDesc h1
    simp only [List.mem_map] at h2
    obtain ⟨p, hp, hpe⟩ := h2
    rw [← hpe]
    exact hp

/-- Witness for C2 at the query "hi" on a freshly created store. -/
theorem search_ranked_witness :
    ∃ scored : List (DBPoint × ℚ),
      list_notes_from_db embConst (some "hi") freshDB =
        .ok (scored.map fun pq => (⟨pq.1.text, some pq.2⟩ : SearchResult)) ∧
      scored.length ≤ 10 ∧
      scored.Sorted (fun a b => b.2 ≤ a.2) ∧
      ∀ pq ∈ scored, pq.1 ∈ ([] : List DBPoint) :=
  search_ranked embConst "hi" (by decide) freshDB ⟨notesCfg, []⟩ rfl
    (List.replicate EMBEDDING_DIM 1) rfl

/-- The store after one add of "hello" to a fresh store (used in witnesses). -/
def dbOne : QdrantDB :=
  ⟨[(QDRANT_COLLECTION_NAME,
     ⟨notesCfg, [⟨1, List.replicate EMBEDDING_DIM 1, "hello"⟩]⟩)]⟩

/-- The store after one add of "hello world" to a fresh store (used in witnesses). -/
def dbHW : QdrantDB :=
  ⟨[(QDRANT_COLLECTION_NAME,
     ⟨notesCfg, [⟨1, List.replicate EMBEDDING_DIM 1, "hello world"⟩]⟩)]⟩

/-- C1: along any sequence of sequential adds from a fresh store, `add_note_to_db`
reads the current exact stored-note count `n`, inserts exactly one record keyed
`n + 1` whose payload carries the text, and the count afterwards is `n + 1`. -/
theorem add_reads_count_inserts_one (emb : Emb) (ts : List String) (db1 : QdrantDB)
    (h1 : addAll emb ts freshDB = .ok db1) (n : Nat)
    (hn : qcount QDRANT_COLLECTION_NAME db1 = .ok n)
    (t : String) (db2 : QdrantDB) (h2 : add_note_to_db emb t db1 = .ok db2) :
    ∃ v pts, emb t = .ok v ∧
      getCollection QDRANT_COLLECTION_NAME db1 = some ⟨notesCfg, pts⟩ ∧
      pts.length = n ∧
      getCollection QDRANT_COLLECTION_NAME db2 =
        some ⟨notesCfg, pts ++ [⟨n + 1, v, t⟩]⟩ ∧
      qcount QDRANT_COLLECTION_NAME db2 = .ok (n + 1) := by
  obtain ⟨pts1, hc1, hid1, _⟩ :=
    addAll_inv emb ts freshDB notesCfg [] freshDB_lookup rfl db1 h1
  have hn2 : pts1.length = n := by
    unfold qcount at hn
    rw [hc1] at hn
    simpa using hn
  obtain ⟨v, he, hc2⟩ := add_step emb t db1 notesCfg pts1 hc1 hid1 db2 h2
  subst hn2
  refine ⟨v, pts1, he, hc1, rfl, hc2, ?_⟩
  unfold qcount
  rw [hc2]
  simp

/-- Witness for C1: one add of "hello" to the fresh store assigns id 1 and raises the
count from 0 to 1. -/
theorem add_reads_count_inserts_one_witness :
    ∃ v pts, embConst "hello" = .ok v ∧
      getCollection QDRANT_COLLECTION_NAME freshDB = some ⟨notesCfg, pts⟩ ∧
      pts.length = 0 ∧
      getCollection QDRANT_COLLECTION_NAME dbOne =
        some ⟨notesCfg, pts ++ [⟨0 + 1, v, "hello"⟩]⟩ ∧
      qcount QDRANT_COLLECTION_NAME dbOne = .ok (0 + 1) :=
  add_reads_count_inserts_one embConst [] freshDB rfl 0 rfl "hello" dbOne rfl

/-- C8: after any sequence of sequential adds on a fresh store the stored ids are
exactly `1..n` in order — positive, pairwise distinct, and each equal to the count of
notes stored at its insertion time plus one. -/
theorem ids_invariant (emb : Emb) (ts : List String) (db1 : QdrantDB)
    (h : addAll emb ts freshDB = .ok db1) :
    ∃ pts, getCollection QDRANT_COLLECTION_NAME db1 = some ⟨notesCfg, pts⟩ ∧
      pts.length = ts.length ∧
      pts.map (fun p => p.id) = idsUpTo pts.length ∧
      (∀ p ∈ pts, 1 ≤ p.id) ∧
      (pts.map (fun p => p.id)).Nodup := by
  obtain ⟨pts, hc, hid, hlen⟩ :=
    addAll_inv emb ts freshDB notesCfg [] freshDB_lookup rfl db1 h
  refine ⟨pts, hc, by simpa using hlen, hid, ?_, ?_⟩
  · intro p hp
    have hmem : p.id ∈ pts.map (fun p => p.id) := List.mem_map_of_mem _ hp
    rw [hid] at hmem
    exact (mem_idsUpTo hmem).1
  · rw [hid]
    exact idsUpTo_nodup _

/-- Witness for C8 after one add. -/
theorem ids_invariant_witness :
    ∃ pts, getCollection QDRANT_COLLECTION_NAME dbOne = some ⟨notesCfg, pts⟩ ∧
      pts.length = (["hello"] : List String).length ∧
      pts.map (fun p => p.id) = idsUpTo pts.length ∧
      (∀ p ∈ pts, 1 ≤ p.id) ∧
      (pts.map (fun p => p.id)).Nodup :=
  ids_invariant embConst ["hello"] dbOne rfl

/-- C4: `add_note_to_db` propagates every collaborator failure unmodified and is
atomic — a missing index propagates the index error with no insert, an embedding
failure propagates that exact error with no insert, and on success exactly one point
is upserted. -/
theorem add_propagates_failures (emb : Emb) (t : String) (db : QdrantDB) :
    (getCollection QDRANT_COLLECTION_NAME db = none →
      add_note_to_db emb t db = .error "collection not found") ∧
    ∀ c, getCollection QDRANT_COLLECTION_NAME db = some c →
      (∀ e, emb t = .error e → add_note_to_db emb t db = .error e) ∧
      (∀ v, emb t = .ok v → add_note_to_db emb t db =
        .ok (setCollection QDRANT_COLLECTION_NAME
          ⟨c.params, insertById ⟨c.points.length + 1, v, t⟩ c.points⟩ db)) := by
  constructor
  · intro h
    simp [add_note_to_db, qcount, h]
  · intro c hc
    constructor
    · intro e he
      simp [add_note_to_db, qcount, hc, get_embedding, he]
    · intro v hv
      simp [add_note_to_db, qcount, hc, get_embedding, hv, qupsert]

/-- Witness for C4: a failing embedding provider propagates its error verbatim. -/
theorem add_propagates_failures_witness :
    add_note_to_db embFail "hello" freshDB = .error "embedding service unavailable" :=
  ((add_propagates_failures embFail "hello" freshDB).2 ⟨notesCfg, []⟩ rfl).1
    "embedding service unavailable" rfl

/-- C6 (amended): when the store reached by sequential adds holds at most 11 notes,
after `add("hello world")` the subsequent unranked list (limit 12 ≥ 1) contains an
entry whose text is "hello world" and whose score is `None`. -/
theorem roundtrip_small (emb : Emb) (ts : List String) (hts : ts.length ≤ 11)
    (db1 : QdrantDB) (h1 : addAll emb ts freshDB = .ok db1)
    (db2 : QdrantDB) (h2 : add_note_to_db emb "hello world" db1 = .ok db2) :
    ∃ rs, list_notes_from_db emb none db2 = .ok rs ∧
      (⟨"hello world", none⟩ : SearchResult) ∈ rs := by
  obtain ⟨pts, hc1, hid1, hlen1⟩ :=
    addAll_inv emb ts freshDB notesCfg [] freshDB_lookup rfl db1 h1
  obtain ⟨v, he, hc2⟩ := add_step emb "hello world" db1 notesCfg pts hc1 hid1 db2 h2
  refine ⟨((pts ++ [(⟨pts.length + 1, v, "hello world"⟩ : DBPoint)]).take 12).map
      (fun p => (⟨p.text, none⟩ : SearchResult)), ?_, ?_⟩
  · simp only [list_notes_from_db, qscroll, hc2]
  · have hlen : (pts ++ [(⟨pts.length + 1, v, "hello world"⟩ : DBPoint)]).length ≤ 12 := by
      rw [List.length_append]
      simp only [List.length_cons, List.length_nil] at hlen1 ⊢
      omega
    rw [List.take_of_length_le hlen]
    have hmem : (⟨pts.length + 1, v, "hello world"⟩ : DBPoint) ∈
        pts ++ [(⟨pts.length + 1, v, "hello world"⟩ : DBPoint)] := by
      simp
    exact List.mem_map_of_mem _ hmem

/-- Witness for C6 (amended): one add of "hello world" to the fresh store. -/
theorem roundtrip_small_witness :
    ∃ rs, list_notes_from_db embConst none dbHW = .ok rs ∧
      (⟨"hello world", none⟩ : SearchResult) ∈ rs :=
  roundtrip_small embConst [] (by decide) freshDB rfl dbHW rfl

/-- The texts pre-loaded in the C6 counterexample run: twelve notes. -/
def cexTexts : List String := List.replicate 12 "x"

/-- The C6 counterexample run: twelve adds, then `add("hello world")`, then the
unranked list, all on a fresh store with the concrete embedding provider. -/
def cexRes : Except String (List SearchResult) :=
  match addAll embConst cexTexts freshDB with
  | .error e => .error e
  | .ok db1 =>
    match add_note_to_db embConst "hello world" db1 with
    | .error e => .error e
    | .ok db2 => list_notes_from_db embConst none db2

/-- The list the C6 counterexample run returns. -/
def cexList : List SearchResult := List.replicate 12 ⟨"x", none⟩

/-- Counterexample to C6 as stated: with twelve notes already stored, the list issued
right after `add("hello world")` succeeds but contains no entry whose text is
"hello world" (the scroll limit of 12 cuts the newest id off). -/
theorem roundtrip_counterexample :
    cexRes = .ok cexList ∧ ∀ r ∈ cexList, r.text ≠ "hello world" := by
  constructor
  · rfl
  · decide

/-- C9: the id-race interleaving of two `add_note_to_db` calls, each decomposed into
its two store accesses exactly as in the source (count read, then upsert keyed
read-count + 1); in this schedule both calls read the count before either upserts. -/
def interleavedAdds (emb : Emb) (t1 t2 : String) (db : QdrantDB) :
    Except String (Nat × Nat × QdrantDB) :=
  match qcount QDRANT_COLLECTION_NAME db with
  | .error e => .error e
  | .ok n1 =>
    match qcount QDRANT_COLLECTION_NAME db with
    | .error e => .error e
    | .ok n2 =>
      match get_embedding emb t1 with
      | .error e => .error e
      | .ok v1 =>
        match qupsert QDRANT_COLLECTION_NAME ⟨n1 + 1, v1, t1⟩ db with
        | .error e => .error e
        | .ok db1 =>
          match get_embedding emb t2 with
          | .error e => .error e
          | .ok v2 =>
            match qupsert QDRANT_COLLECTION_NAME ⟨n2 + 1, v2, t2⟩ db1 with
            | .error e => .error e
            | .ok db2 => .ok (n1 + 1, n2 + 1, db2)

/-- C9: there is an interleaving of two concurrent adds (both count reads before
either upsert) in which both calls compute the same id 1; the second upsert then
overwrites the first note, so two adds leave a single stored note. -/
theorem concurrent_add_hazard :
    (interleavedAdds embConst "first note" "second note" freshDB).map
      (fun r => (r.1, r.2.1)) = .ok (1, 1) ∧
    (interleavedAdds embConst "first note" "second note" freshDB).bind
      (fun r => qcount QDRANT_COLLECTION_NAME r.2.2) = .ok 1 ∧
    (interleavedAdds embConst "first note" "second note" freshDB).bind
      (fun r => (qscroll QDRANT_COLLECTION_NAME 12 r.2.2).map
        (fun l => l.map fun p => p.text)) = .ok ["second note"] :=
  ⟨rfl, rfl, rfl⟩
